import Mathlib

/-!
Verification development for the `python-vendor` repository.

The definitions below are a shallow embedding of `src/vendor/aws/vendor/handler.py`:
filenames and strings are modelled as `List Char`, Python `None` as `Option.none`,
raised exceptions as `Option`/`Except` error values, and the S3 object store as an
explicit state threaded through `upload_artifact`.  Python's `re.match` anchors a
pattern at the start of the string but not at the end, so the two filename regexes
`PackageInfo.src_re` and `PackageInfo.whl_re` are embedded as prefix matchers with
the exact greedy/backtracking behaviour of the concrete patterns.  The regex class
`\d` is modelled by the ASCII digits and `\w` by ASCII alphanumerics plus `_`.
-/

/-- Models the regex character class `[^-]`: any character other than a hyphen. -/
def nonHyphen (c : Char) : Bool := c != '-'

/-- Models Python `x.split('.')` followed by `set(...)`, as used by
`PackageInfo.__init__` for the `python`/`abi`/`platform` tag fields. -/
def tagSet (x : List Char) : Finset (List Char) := (x.splitOn '.').toFinset

/-- The built-binary extension string `.whl`. -/
def whlExt : List Char := ".whl".toList

/-- Result of `PackageInfo.__init__` in handler.py.  `build_tag` is an `Option`
because Python stores `None` when the optional build group of `whl_re` does not
participate in a match, while the keyword default for source artifacts is the
empty string (modelled `some []`). -/
structure PackageInfo where
  distribution : List Char
  version : List Char
  build_tag : Option (List Char)
  python_tags : Option (Finset (List Char))
  abi_tags : Finset (List Char)
  platform_tags : Finset (List Char)
  ext : List Char
deriving DecidableEq

/-- `PackageInfo.__init__(distribution, version, ext, build, python, abi, platform)`:
`python_tags` is `None` when `python` is falsy (the empty string), otherwise the
dot-split tag set; `abi_tags`/`platform_tags` are always dot-split tag sets. -/
def PackageInfo.make (distribution version ext : List Char) (build : Option (List Char))
    (python abi platform : List Char) : PackageInfo :=
  { distribution := distribution
    version := version
    build_tag := build
    python_tags := if python = [] then none else some (tagSet python)
    abi_tags := tagSet abi
    platform_tags := tagSet platform
    ext := ext }

/-- `PackageInfo.is_src`: the artifact is source code when its extension is not `.whl`. -/
def PackageInfo.is_src (i : PackageInfo) : Bool := i.ext != whlExt

/-- `PackageInfo.is_whl`: the artifact is a wheel when its extension is `.whl`. -/
def PackageInfo.is_whl (i : PackageInfo) : Bool := i.ext == whlExt

/-- The alternatives of the `ext` group of `src_re`, `\.tar\.[bgx]z|\.zip`:
note that the pattern recognises `.tar.bz`, not `.tar.bz2`. -/
def srcExtPats : List (List Char) :=
  [".tar.bz".toList, ".tar.gz".toList, ".tar.xz".toList, ".zip".toList]

/-- Matching the `ext` alternation of `src_re` at the start of `l`; at most one
alternative can match at a given position, and a match may leave a remainder of
`l` unconsumed (Python `re.match` does not anchor the end). -/
def extMatch (l : List Char) : Option (List Char) :=
  srcExtPats.find? (fun pat => pat.isPrefixOf l)

/-- Greedy search for the end of the `version` group of `src_re`: the largest
`j ≤ k` such that the `ext` alternation matches at `rest.drop j`.  The regex
engine tries the longest `[^-]+` run first and backtracks one character at a
time, which is exactly this descending search. -/
def findSplit : Nat → List Char → Option (Nat × List Char)
  | 0, _ => none
  | k + 1, rest =>
    match extMatch (rest.drop (k + 1)) with
    | some e => some (k + 1, e)
    | none => findSplit k rest

/-- `src_re.match(s)`: `(?P<distribution>[^-]+)-(?P<version>[^-]+)(?P<ext>\.tar\.[bgx]z|\.zip)`.
Returns the `(distribution, version, ext)` captures of the prefix match, if any. -/
def srcMatch (s : List Char) : Option (List Char × List Char × List Char) :=
  let d := s.takeWhile nonHyphen
  match s.dropWhile nonHyphen with
  | '-' :: rest =>
    if d = [] then none
    else
      match findSplit (rest.takeWhile nonHyphen).length rest with
      | some (j, e) => some (d, rest.take j, e)
      | none => none
  | _ => none

/-- Captures of a `whl_re` match: the optional `build` group is `none` when it
did not participate in the match. -/
structure WhlGroups where
  distribution : List Char
  version : List Char
  build : Option (List Char)
  python : List Char
  abi : List Char
  platform : List Char
deriving DecidableEq

/-- Greedy search for the end of the `platform` group of `whl_re`: the largest
`j ≤ k` such that the literal `.whl` matches at `u.drop j`. -/
def platSearch : Nat → List Char → Option Nat
  | 0, _ => none
  | k + 1, u =>
    if whlExt.isPrefixOf (u.drop (k + 1)) then some (k + 1) else platSearch k u

/-- The suffix `-(?P<python>[^-]+)-(?P<abi>[^-]+)-(?P<platform>[^-]+)\.whl` of
`whl_re`, matched against the text following the hyphen after the version (or
build) group.  Returns the `(python, abi, platform)` captures. -/
def tailPAP (u : List Char) : Option (List Char × List Char × List Char) :=
  let p := u.takeWhile nonHyphen
  match u.dropWhile nonHyphen with
  | '-' :: u2 =>
    if p = [] then none
    else
      let a := u2.takeWhile nonHyphen
      match u2.dropWhile nonHyphen with
      | '-' :: u3 =>
        if a = [] then none
        else
          match platSearch (u3.takeWhile nonHyphen).length u3 with
          | some j => some (p, a, u3.take j)
          | none => none
      | _ => none
  | _ => none

/-- Head-is-a-digit test for the build group `\d[^-]*` (ASCII model of `\d`). -/
def digitHead : List Char → Bool
  | c :: _ => c.isDigit
  | [] => false

/-- `whl_re.match(s)`.  After the `distribution` and `version` groups the engine
first tries to include the optional greedy group `(-(?P<build>\d[^-]*))?` and
backtracks to omitting it when the rest of the pattern cannot match. -/
def whlMatch (s : List Char) : Option WhlGroups :=
  let d := s.takeWhile nonHyphen
  match s.dropWhile nonHyphen with
  | '-' :: r1 =>
    if d = [] then none
    else
      let v := r1.takeWhile nonHyphen
      match r1.dropWhile nonHyphen with
      | '-' :: t =>
        if v = [] then none
        else
          let bseg := t.takeWhile nonHyphen
          let branchA : Option WhlGroups :=
            match t.dropWhile nonHyphen with
            | '-' :: t2 =>
              if digitHead bseg then
                match tailPAP t2 with
                | some (p, a, pl) => some ⟨d, v, some bseg, p, a, pl⟩
                | none => none
              else none
            | _ => none
          match branchA with
          | some r => some r
          | none =>
            match tailPAP t with
            | some (p, a, pl) => some ⟨d, v, none, p, a, pl⟩
            | none => none
      | _ => none
  | _ => none

/-- `PackageInfo.parse(filename)`: tries `src_re` first, then `whl_re`, and
builds a `PackageInfo` from the group dictionary of the first regex that
matches; `none` models the `ParseError` raised when neither matches.  A source
match leaves the keyword defaults `build=''`, `python=''`, `abi='none'`,
`platform='any'`; a wheel match passes every group, with `build=None` when the
optional group was absent. -/
def PackageInfo.parse (s : List Char) : Option PackageInfo :=
  match srcMatch s with
  | some (d, v, e) => some (PackageInfo.make d v e (some []) [] "none".toList "any".toList)
  | none =>
    match whlMatch s with
    | some w => some (PackageInfo.make w.distribution w.version whlExt w.build w.python w.abi w.platform)
    | none => none

/-- `os.path.split(p)`: splits at the last `/`; the tail is everything after the
last separator and the head is stripped of trailing separators unless it
consists only of separators. -/
def os_path_split (p : List Char) : List Char × List Char :=
  let r := p.reverse
  let base := (r.takeWhile (· != '/')).reverse
  let head := (r.dropWhile (· != '/')).reverse
  let dirname :=
    if head ≠ [] ∧ ¬ head.all (· == '/') then (head.reverse.dropWhile (· == '/')).reverse
    else head
  (dirname, base)

/-- `PackageArtifact(filepath)`: keeps the path, its `os.path.split` parts and the
parsed `PackageInfo` of the filename; constructing it raises `ParseError` (here
`none`) when the filename parses as neither grammar.  The `content` field models
the bytes of the local file, which the store model needs. -/
structure PackageArtifact where
  filepath : List Char
  dirname : List Char
  filename : List Char
  info : PackageInfo
  content : List Char
deriving DecidableEq

def PackageArtifact.make (filepath content : List Char) : Option PackageArtifact :=
  let split := os_path_split filepath
  (PackageInfo.parse split.2).map fun i => ⟨filepath, split.1, split.2, i, content⟩

/-- The storage key computed by `upload_artifact`:
`'{info.distribution}/{filename}'.format(...)`. -/
def artifactKey (a : PackageArtifact) : List Char :=
  a.info.distribution ++ '/' :: a.filename

/-- Replace the first binding of `k` in an association list in place, or append
it when absent.  Models assignment into a Python dict (and writing an object
into the bucket). -/
def dictSet {β : Type} : List (List Char × β) → List Char → β → List (List Char × β)
  | [], k, v => [(k, v)]
  | kv :: rest, k, v =>
    if kv.1 == k then (k, v) :: rest else kv :: dictSet rest k v

/-- The S3 bucket model: `objects` maps keys to stored content, `uploads` logs
every `obj.upload_file` invocation in order. -/
structure Store where
  objects : List (List Char × List Char)
  uploads : List (List Char)
deriving DecidableEq

/-- `obj.upload_file(artifact.filepath)`: writes the local content under `key`
and records the upload invocation. -/
def storePut (st : Store) (key content : List Char) : Store :=
  { objects := dictSet st.objects key content, uploads := st.uploads ++ [key] }

/-- Outcome of the existence probe `obj.load()` against the external store.
boto3 raises `ClientError` both for a missing object (404) and for an auth
denial (403), while transport failures raise exceptions outside the
`ClientError` class. -/
inductive LoadOutcome
  | found
  | notFound
  | authDenied
  | transportFail
deriving DecidableEq

/-- Which probe outcomes are caught by `except s3.meta.client.exceptions.ClientError`. -/
def LoadOutcome.isClientError : LoadOutcome → Bool
  | .notFound => true
  | .authDenied => true
  | _ => false

/-- `upload_artifact(artifact, bucketname, overwrite)`: computes the key; when
`overwrite` is set it uploads unconditionally; otherwise it probes with
`obj.load()`, treats any `ClientError` as the trigger to upload, skips the
upload when the object is found, and lets any other exception propagate
(modelled as `Except.error`). -/
def upload_artifact (st : Store) (a : PackageArtifact) (overwrite : Bool)
    (probe : LoadOutcome) : Except Unit (Store × List Char) :=
  let key := artifactKey a
  if overwrite then .ok (storePut st key a.content, key)
  else
    match probe with
    | .found => .ok (st, key)
    | .notFound => .ok (storePut st key a.content, key)
    | .authDenied => .ok (storePut st key a.content, key)
    | .transportFail => .error ()

/-- The probe outcome a well-behaved store reports: the object is found exactly
when the key is present in the bucket. -/
def honestProbe (st : Store) (key : List Char) : LoadOutcome :=
  if (st.objects.lookup key).isSome then .found else .notFound

/-- `upload_artifact` run against a well-behaved store. -/
def uploadRun (st : Store) (a : PackageArtifact) (overwrite : Bool) :
    Except Unit (Store × List Char) :=
  upload_artifact st a overwrite (honestProbe st (artifactKey a))

/-- The `tempdir()` context manager of handler.py: `mkdtemp`, `yield`, then
`shutil.rmtree` — with no `try`/`finally`, so the cleanup statement after the
`yield` runs only when the managed block finishes normally; an exception thrown
through the `yield` propagates and skips the `rmtree`.  The `Bool` component
reports whether the staging directory was removed. -/
def tempdirRun {ε α : Type} (body : Except ε α) : Except ε α × Bool :=
  match body with
  | .ok a => (.ok a, true)
  | .error e => (.error e, false)

/-- Helper for `splitWs`: scan the characters, accumulating the current word
(in reverse) and emitting it at each whitespace boundary. -/
def splitWsAux : List Char → List Char → List (List Char)
  | [], acc => if acc = [] then [] else [acc.reverse]
  | c :: rest, acc =>
    if c.isWhitespace then
      if acc = [] then splitWsAux rest [] else acc.reverse :: splitWsAux rest []
    else splitWsAux rest (c :: acc)

/-- Python `str.split()` with no argument: split on runs of whitespace,
discarding empty fields. -/
def splitWs (s : List Char) : List (List Char) := splitWsAux s []

/-- `download_packages`' shape normalization: a single string is whitespace-split
(`requirements.split()`, chosen by the `hasattr(requirements, 'split')` duck
test), a list is passed through. -/
def normalizeRequirements : (List Char) ⊕ (List (List Char)) → List (List Char)
  | .inl s => splitWs s
  | .inr l => l

/-- `download_packages(requirements)` together with its caller's `with` block:
normalizes the specifiers, runs `pip download` (modelled by `fetch` applied to
the normalized list) inside `tempdir()`, yields the downloaded paths to the
consumer, and removes the staging directory only on the exit paths where
`tempdir` does.  Returns the overall outcome and whether the staging directory
was removed. -/
def download_packages {α : Type} (requirements : (List Char) ⊕ (List (List Char)))
    (fetch : List (List Char) → Except Unit (List (List Char)))
    (consumer : List (List Char) → Except Unit α) : Except Unit α × Bool :=
  tempdirRun ((fetch (normalizeRequirements requirements)).bind consumer)

/-- Python string comparison on a key pair: lexicographic by code point. -/
def keyLE : List Char → List Char → Bool
  | [], _ => true
  | _ :: _, [] => false
  | x :: xs, y :: ys => if x = y then keyLE xs ys else decide (x < y)

/-- Insert a key into an already sorted list of keys. -/
def insertKey (k : List Char) : List (List Char) → List (List Char)
  | [] => [k]
  | x :: xs => if keyLE k x then k :: x :: xs else x :: insertKey k xs

/-- `sorted(keys)`: a stable insertion sort under the string order, which
agrees with Python's `sorted` on every list of keys. -/
def sortKeys (l : List (List Char)) : List (List Char) := l.foldr insertKey []

/-- The loop body of `vend`: each downloaded file becomes a `PackageArtifact`
(a `ParseError` propagates out of `vend`), is uploaded with `overwrite=rebuild`,
and its key is appended; for source artifacts `build_wheel(key, ...)` is called,
which only launches an EC2 build instance and returns nothing — modelled by
logging the source key passed to it. -/
def vendLoop (files : List (List Char × List Char)) (st : Store) (rebuild : Bool)
    (keys builds : List (List Char)) :
    Except Unit (Store × List (List Char) × List (List Char)) :=
  match files with
  | [] => .ok (st, keys, builds)
  | (fname, content) :: rest =>
    match PackageArtifact.make fname content with
    | none => .error ()
    | some a =>
      match uploadRun st a rebuild with
      | .error _ => .error ()
      | .ok (st', key) =>
        vendLoop rest st' rebuild (keys ++ [key])
          (if a.info.is_src then builds ++ [key] else builds)

/-- The response body of `vend`. -/
structure VendResponse where
  message : List Char
  bucket_url : List Char
  artifacts : List (List Char)
deriving DecidableEq

/-- `vend(requirements, rebuild, ...)` after the download step: `files` are the
`(filename, content)` pairs the acquisition yielded.  Returns the final store,
the response body (with `artifacts = sorted(keys)`), and the log of
`build_wheel` invocations. -/
def vend (files : List (List Char × List Char)) (st : Store) (rebuild : Bool)
    (bucketname : List Char) :
    Except Unit (Store × VendResponse × List (List Char)) :=
  (vendLoop files st rebuild [] []).map fun r =>
    let bucket_url := "https://".toList ++ bucketname ++ ".s3.amazonaws.com/".toList
    (r.1, ⟨"Build under way. Once complete, download wheels from ".toList ++ bucket_url ++
      ".".toList, bucket_url, sortKeys r.2.1⟩, r.2.2)

/-- JSON values as they appear in a parsed request body object. -/
inductive JsonVal
  | str : List Char → JsonVal
  | boolean : Bool → JsonVal
  | num : Int → JsonVal
  | null : JsonVal
deriving DecidableEq

/-- Models the regex class `\w` (ASCII). -/
def wordChar (c : Char) : Bool := c.isAlphanum || c == '_'

def lbraceChar : Char := Char.ofNat 123

def rbraceChar : Char := Char.ofNat 125

/-- `PROXY_PARAM_RE.search(resource)` for `\{(?P<key>\w+)\+\}`: scan left to
right for the first occurrence of an opening brace followed by a nonempty word
run, a plus and a closing brace, and return the word run (the parameter key). -/
def findProxyParam : List Char → Option (List Char)
  | [] => none
  | c :: rest =>
    if c = lbraceChar then
      let w := rest.takeWhile wordChar
      match rest.dropWhile wordChar with
      | '+' :: d :: _ =>
        if w ≠ [] ∧ d = rbraceChar then some w else findProxyParam rest
      | _ => findProxyParam rest
    else findProxyParam rest

/-- The inbound API Gateway proxy event, with `body` already JSON-decoded
(`none` models an absent or empty body, for which `if event['body']:` skips the
update; likewise for the other two optional mappings). -/
structure ProxyEvent where
  resource : List Char
  pathParameters : Option (List (List Char × List Char))
  queryStringParameters : Option (List (List Char × List Char))
  body : Option (List (List Char × JsonVal))

/-- `kwargs.update(other)`: fold dict assignment over the entries of `other`. -/
def dictUpdate {β : Type} (base upd : List (List Char × β)) : List (List Char × β) :=
  upd.foldl (fun m kv => dictSet m kv.1 kv.2) base

/-- String-valued parameter mappings injected into the JSON value domain. -/
def strVals (m : List (List Char × List Char)) : List (List Char × JsonVal) :=
  m.map fun kv => (kv.1, JsonVal.str kv.2)

/-- The request-parsing phase of `apiproxy.__call__`: positional arguments come
from splitting the greedy path parameter's value on `/`; keyword arguments are
`{}` updated with the body, then the query parameters, then the remaining path
parameters.  `none` models `event['pathParameters'].pop(...)` raising because
the resource declares a greedy parameter that the event does not carry. -/
def apiproxyCall (e : ProxyEvent) :
    Option (List (List Char) × List (List Char × JsonVal)) :=
  let bodyKw := match e.body with | some b => b | none => []
  let queryKw := match e.queryStringParameters with | some q => strVals q | none => []
  match findProxyParam e.resource with
  | none =>
    let pathKw := match e.pathParameters with | some pp => strVals pp | none => []
    some ([], dictUpdate (dictUpdate (dictUpdate [] bodyKw) queryKw) pathKw)
  | some key =>
    match e.pathParameters with
    | none => none
    | some pp =>
      match pp.lookup key with
      | none => none
      | some ppath =>
        let remaining := pp.filter fun kv => !(kv.1 == key)
        some (ppath.splitOn '/',
          dictUpdate (dictUpdate (dictUpdate [] bodyKw) queryKw) (strVals remaining))

/-- The four extensions named by the specification's source grammar. -/
def specSrcExts : List (List Char) :=
  [".tar.gz".toList, ".tar.bz2".toList, ".tar.xz".toList, ".zip".toList]

/-- The specification's source grammar read as covering the whole filename:
`<distribution>-<version><ext>`.  Deliberately permissive — `d` and `v` are
only required to be nonempty — so that its negation refutes every reading. -/
def SrcGrammarFull (s : List Char) : Prop :=
  ∃ d v e, d ≠ [] ∧ v ≠ [] ∧ e ∈ specSrcExts ∧ s = d ++ '-' :: (v ++ e)

/-- A permissive whole-filename reading of the built-binary grammar: the
filename ends in `.whl`. -/
def WhlGrammarFull (s : List Char) : Prop :=
  ∃ front, s = front ++ whlExt

/-- The language accepted by `src_re` under `re.match`: some prefix of the
filename is `<distribution>-<version><ext'>` with nonempty hyphen-free
distribution and version and `ext'` an alternative of the pattern. -/
def SrcPrefixForm (s : List Char) : Prop :=
  ∃ d v e r, d ≠ [] ∧ (∀ c ∈ d, c ≠ '-') ∧ v ≠ [] ∧ (∀ c ∈ v, c ≠ '-') ∧
    e ∈ srcExtPats ∧ s = d ++ '-' :: (v ++ e ++ r)

/-- The optional build segment as it appears in the filename. -/
def buildSeg : Option (List Char) → List Char
  | none => []
  | some b => '-' :: b

/-- Wellformedness of the optional build group: when present it begins with a
digit and contains no hyphen. -/
def BuildOk : Option (List Char) → Prop
  | none => True
  | some b => digitHead b = true ∧ ∀ c ∈ b, c ≠ '-'

/-- The language accepted by `whl_re` under `re.match`. -/
def WhlPrefixForm (s : List Char) : Prop :=
  ∃ d v b p a pl r, d ≠ [] ∧ (∀ c ∈ d, c ≠ '-') ∧ v ≠ [] ∧ (∀ c ∈ v, c ≠ '-') ∧
    BuildOk b ∧ p ≠ [] ∧ (∀ c ∈ p, c ≠ '-') ∧ a ≠ [] ∧ (∀ c ∈ a, c ≠ '-') ∧
    pl ≠ [] ∧ (∀ c ∈ pl, c ≠ '-') ∧
    s = d ++ '-' :: (v ++ buildSeg b ++ '-' :: (p ++ '-' :: (a ++ '-' :: (pl ++ whlExt ++ r))))

/-- A built-binary filename assembled from its fields, with nothing after the
`.whl` extension. -/
def composeWhl (d v : List Char) (b : Option (List Char)) (p a pl : List Char) : List Char :=
  d ++ '-' :: (v ++ buildSeg b ++ '-' :: (p ++ '-' :: (a ++ '-' :: (pl ++ whlExt))))

deriving instance DecidableEq for Except

/-- A concrete artifact used to instantiate the publish theorems: the result of
`PackageArtifact('/tmp/requests-2.0.0.tar.gz')` with local content `bytes`. -/
def sampleArtifact : PackageArtifact :=
  ⟨"/tmp/requests-2.0.0.tar.gz".toList, "/tmp".toList, "requests-2.0.0.tar.gz".toList,
    PackageInfo.make "requests".toList "2.0.0".toList ".tar.gz".toList (some [])
      [] "none".toList "any".toList,
    "bytes".toList⟩

theorem nonHyphen_iff (c : Char) : nonHyphen c = true ↔ c ≠ '-' := by
  simp [nonHyphen]

theorem takeWhile_hyphen_free (d rest : List Char) (h : ∀ c ∈ d, c ≠ '-') :
    (d ++ '-' :: rest).takeWhile nonHyphen = d := by
  rw [List.takeWhile_append_of_pos (fun a ha => (nonHyphen_iff a).mpr (h a ha))]
  simp [List.takeWhile, nonHyphen]

theorem dropWhile_hyphen_free (d rest : List Char) (h : ∀ c ∈ d, c ≠ '-') :
    (d ++ '-' :: rest).dropWhile nonHyphen = '-' :: rest := by
  rw [List.dropWhile_append_of_pos (fun a ha => (nonHyphen_iff a).mpr (h a ha))]
  simp [List.dropWhile, nonHyphen]

theorem takeWhile_all (p : Char → Bool) (l : List Char) (h : ∀ c ∈ l, p c) :
    l.takeWhile p = l := by
  induction l with
  | nil => rfl
  | cons c rest ih =>
    simp only [List.takeWhile, h c (List.mem_cons_self c rest)]
    exact congrArg (c :: ·) (ih fun a ha => h a (List.mem_cons_of_mem c ha))

theorem dropWhile_all (p : Char → Bool) (l : List Char) (h : ∀ c ∈ l, p c) :
    l.dropWhile p = [] := by
  induction l with
  | nil => rfl
  | cons c rest ih =>
    simp only [List.dropWhile, h c (List.mem_cons_self c rest)]
    exact ih fun a ha => h a (List.mem_cons_of_mem c ha)

theorem length_le_takeWhile_of_all (p : Char → Bool) (v r : List Char)
    (h : ∀ c ∈ v, p c) : v.length ≤ ((v ++ r).takeWhile p).length := by
  rw [List.takeWhile_append_of_pos h]
  simp

theorem all_take_of_le_takeWhile (p : Char → Bool) (l : List Char) (j : Nat)
    (h : j ≤ (l.takeWhile p).length) : ∀ c ∈ l.take j, p c := by
  intro c hc
  obtain ⟨t, ht⟩ := List.takeWhile_prefix (l := l) (p := p)
  have : l.take j = (l.takeWhile p).take j := by
    conv_lhs => rw [← ht]
    exact List.take_append_of_le_length h
  rw [this] at hc
  exact List.mem_takeWhile_imp (List.take_subset j _ hc)

theorem extMatch_some_spec (l e : List Char) (h : extMatch l = some e) :
    e ∈ srcExtPats ∧ e <+: l := by
  refine ⟨List.mem_of_find?_eq_some h, ?_⟩
  have := List.find?_some h
  exact (List.isPrefixOf_iff_prefix).mp this

theorem extMatch_isSome_of (l e : List Char) (he : e ∈ srcExtPats) (hp : e <+: l) :
    (extMatch l).isSome := by
  exact List.find?_isSome.mpr ⟨e, he, (List.isPrefixOf_iff_prefix).mpr hp⟩

theorem findSplit_some_spec (k : Nat) (rest : List Char) (j : Nat) (e : List Char)
    (h : findSplit k rest = some (j, e)) :
    1 ≤ j ∧ j ≤ k ∧ extMatch (rest.drop j) = some e := by
  induction k with
  | zero => simp [findSplit] at h
  | succ k ih =>
    rw [findSplit] at h
    cases hm : extMatch (rest.drop (k + 1)) with
    | some e' =>
      rw [hm] at h
      obtain ⟨rfl, rfl⟩ : k + 1 = j ∧ e' = e := by simpa using h
      exact ⟨Nat.succ_le_succ (Nat.zero_le k), Nat.le_refl _, hm⟩
    | none =>
      rw [hm] at h
      obtain ⟨h1, h2, h3⟩ := ih h
      exact ⟨h1, Nat.le_succ_of_le h2, h3⟩

theorem findSplit_isSome (k : Nat) (rest : List Char) (j : Nat)
    (h1 : 1 ≤ j) (h2 : j ≤ k) (h3 : (extMatch (rest.drop j)).isSome) :
    (findSplit k rest).isSome := by
  induction k with
  | zero => omega
  | succ k ih =>
    rw [findSplit]
    cases hm : extMatch (rest.drop (k + 1)) with
    | some e' => simp
    | none =>
      simp only []
      rcases Nat.lt_or_ge j (k + 1) with hj | hj
      · exact ih (by omega)
      · have : j = k + 1 := by omega
        rw [this] at h3
        rw [hm] at h3
        simp at h3

theorem findSplit_eq (k : Nat) (rest : List Char) (t : Nat) (e : List Char)
    (h1 : 1 ≤ t) (h2 : t ≤ k) (h3 : extMatch (rest.drop t) = some e)
    (h4 : ∀ j, t < j → j ≤ k → extMatch (rest.drop j) = none) :
    findSplit k rest = some (t, e) := by
  induction k with
  | zero => omega
  | succ k ih =>
    rw [findSplit]
    rcases Nat.lt_or_ge t (k + 1) with hj | hj
    · rw [h4 (k + 1) hj (Nat.le_refl _)]
      exact ih (by omega) (fun j hjt hjk => h4 j hjt (Nat.le_succ_of_le hjk))
    · have : t = k + 1 := by omega
      subst this
      rw [h3]

theorem platSearch_some_spec (k : Nat) (u : List Char) (j : Nat)
    (h : platSearch k u = some j) :
    1 ≤ j ∧ j ≤ k ∧ whlExt.isPrefixOf (u.drop j) = true := by
  induction k with
  | zero => simp [platSearch] at h
  | succ k ih =>
    rw [platSearch] at h
    by_cases hm : whlExt.isPrefixOf (u.drop (k + 1)) = true
    · rw [if_pos hm] at h
      obtain rfl : k + 1 = j := by simpa using h
      exact ⟨Nat.succ_le_succ (Nat.zero_le k), Nat.le_refl _, hm⟩
    · rw [if_neg hm] at h
      obtain ⟨h1, h2, h3⟩ := ih h
      exact ⟨h1, Nat.le_succ_of_le h2, h3⟩

theorem platSearch_isSome (k : Nat) (u : List Char) (j : Nat)
    (h1 : 1 ≤ j) (h2 : j ≤ k) (h3 : whlExt.isPrefixOf (u.drop j) = true) :
    (platSearch k u).isSome := by
  induction k with
  | zero => omega
  | succ k ih =>
    rw [platSearch]
    by_cases hm : whlExt.isPrefixOf (u.drop (k + 1)) = true
    · simp [hm]
    · rw [if_neg hm]
      rcases Nat.lt_or_ge j (k + 1) with hj | hj
      · exact ih (by omega)
      · have : j = k + 1 := by omega
        rw [this] at h3
        exact absurd h3 hm

theorem platSearch_eq (k : Nat) (u : List Char) (t : Nat)
    (h1 : 1 ≤ t) (h2 : t ≤ k) (h3 : whlExt.isPrefixOf (u.drop t) = true)
    (h4 : ∀ j, t < j → j ≤ k → whlExt.isPrefixOf (u.drop j) = false) :
    platSearch k u = some t := by
  induction k with
  | zero => omega
  | succ k ih =>
    rw [platSearch]
    rcases Nat.lt_or_ge t (k + 1) with hj | hj
    · rw [if_neg (by simp [h4 (k + 1) hj (Nat.le_refl _)])]
      exact ih (by omega) (fun j hjt hjk => h4 j hjt (Nat.le_succ_of_le hjk))
    · have : t = k + 1 := by omega
      subst this
      rw [if_pos h3]

theorem extMatch_drop_none (e : List Char) (he : e ∈ specSrcExts) (i : Nat) :
    extMatch (e.drop (i + 1)) = none := by
  rcases Nat.lt_or_ge (i + 1) 9 with h | h
  · have hb : ∀ j, j < 9 → 0 < j → extMatch (e.drop j) = none := by
      fin_cases he <;> decide
    exact hb (i + 1) h (Nat.succ_pos i)
  · have hlen : e.length ≤ i + 1 := by
      have : e.length ≤ 9 := by fin_cases he <;> decide
      omega
    rw [List.drop_eq_nil_of_le hlen]
    decide

theorem extMatch_pat_drop_none (e : List Char) (he : e ∈ srcExtPats) (i : Nat) :
    extMatch (e.drop (i + 1)) = none := by
  rcases Nat.lt_or_ge (i + 1) 8 with h | h
  · have hb : ∀ j, j < 8 → 0 < j → extMatch (e.drop j) = none := by
      fin_cases he <;> decide
    exact hb (i + 1) h (Nat.succ_pos i)
  · have hlen : e.length ≤ i + 1 := by
      have : e.length ≤ 8 := by fin_cases he <;> decide
      omega
    rw [List.drop_eq_nil_of_le hlen]
    decide

theorem whlExt_drop_not_prefix (i : Nat) :
    whlExt.isPrefixOf (whlExt.drop (i + 1)) = false := by
  rcases Nat.lt_or_ge (i + 1) 5 with h | h
  · have hb : ∀ j, j < 5 → 0 < j → whlExt.isPrefixOf (whlExt.drop j) = false := by
      decide
    exact hb (i + 1) h (Nat.succ_pos i)
  · have hlen : whlExt.length ≤ i + 1 := by
      have : whlExt.length = 4 := by decide
      omega
    rw [List.drop_eq_nil_of_le hlen]
    decide

theorem srcMatch_sound (s d v e : List Char) (h : srcMatch s = some (d, v, e)) :
    SrcPrefixForm s := by
  simp only [srcMatch] at h
  split at h
  next rest heq =>
    split at h
    next => exact absurd h (by simp)
    next hd0 =>
      split at h
      next j e' hfs =>
        obtain ⟨rfl, rfl, rfl⟩ : s.takeWhile nonHyphen = d ∧ rest.take j = v ∧ e' = e := by
          simpa using h
        obtain ⟨hj1, hjk, hext⟩ := findSplit_some_spec _ rest _ _ hfs
        obtain ⟨hpat, hpre⟩ := extMatch_some_spec _ _ hext
        obtain ⟨r, hr⟩ := hpre
        have hdf : ∀ c ∈ s.takeWhile nonHyphen, c ≠ '-' :=
          fun c hc => (nonHyphen_iff c).mp (List.mem_takeWhile_imp hc)
        have hv0 : rest.take j ≠ [] := by
          rw [Ne, List.take_eq_nil_iff]
          rintro (rfl | rfl)
          · omega
          · simp only [List.drop_nil] at hr
            obtain ⟨he0, -⟩ := List.append_eq_nil.mp hr
            rw [he0] at hpat
            exact absurd hpat (by decide)
        have hvf : ∀ c ∈ rest.take j, c ≠ '-' := fun c hc =>
          (nonHyphen_iff c).mp (all_take_of_le_takeWhile nonHyphen rest j hjk c hc)
        have hseq : s = s.takeWhile nonHyphen ++ '-' :: (rest.take j ++ e' ++ r) := by
          have hs : s = s.takeWhile nonHyphen ++ ('-' :: rest) := by
            conv_lhs => rw [← List.takeWhile_append_dropWhile nonHyphen s]
            rw [heq]
          have hrest : rest = rest.take j ++ (e' ++ r) := by
            rw [hr]
            exact (List.take_append_drop j rest).symm
          conv_lhs => rw [hs, hrest]
          simp [List.append_assoc]
        exact ⟨s.takeWhile nonHyphen, rest.take j, e', r, hd0, hdf, hv0, hvf, hpat, hseq⟩
      next => exact absurd h (by simp)
  next => exact absurd h (by simp)

theorem srcMatch_isSome_of_form (s : List Char) (h : SrcPrefixForm s) :
    (srcMatch s).isSome := by
  obtain ⟨d, v, e, r, hd0, hdf, hv0, hvf, hpat, rfl⟩ := h
  have hdw := dropWhile_hyphen_free d (v ++ e ++ r) hdf
  have htw := takeWhile_hyphen_free d (v ++ e ++ r) hdf
  have hfs : (findSplit ((v ++ e ++ r).takeWhile nonHyphen).length (v ++ e ++ r)).isSome := by
    apply findSplit_isSome _ _ v.length
    · exact List.length_pos.mpr hv0
    · have := length_le_takeWhile_of_all nonHyphen v (e ++ r)
        (fun c hc => (nonHyphen_iff c).mpr (hvf c hc))
      simpa [List.append_assoc] using this
    · have hd : (v ++ e ++ r).drop v.length = e ++ r := by
        rw [List.append_assoc]
        exact List.drop_left v (e ++ r)
      rw [hd]
      exact extMatch_isSome_of _ e hpat ⟨r, rfl⟩
  obtain ⟨⟨j, e'⟩, hj⟩ := Option.isSome_iff_exists.mp hfs
  simp only [srcMatch, hdw, htw, hj]
  rw [if_neg hd0]
  simp

theorem srcMatch_none_iff (s : List Char) : srcMatch s = none ↔ ¬ SrcPrefixForm s := by
  constructor
  · intro hn hform
    have := srcMatch_isSome_of_form s hform
    rw [hn] at this
    simp at this
  · intro hform
    cases hm : srcMatch s with
    | none => rfl
    | some x =>
      obtain ⟨d, v, e⟩ := x
      exact absurd (srcMatch_sound s d v e hm) hform

theorem extMatch_of_spec_ext (e : List Char) (he : e ∈ specSrcExts) :
    ∃ e', e' ∈ srcExtPats ∧ extMatch e = some e' := by
  fin_cases he
  · exact ⟨".tar.gz".toList, by decide, by decide⟩
  · exact ⟨".tar.bz".toList, by decide, by decide⟩
  · exact ⟨".tar.xz".toList, by decide, by decide⟩
  · exact ⟨".zip".toList, by decide, by decide⟩

theorem srcMatch_compose (d v e : List Char) (hd0 : d ≠ []) (hdf : ∀ c ∈ d, c ≠ '-')
    (hv0 : v ≠ []) (hvf : ∀ c ∈ v, c ≠ '-') (he : e ∈ specSrcExts) :
    ∃ e', e' ∈ srcExtPats ∧ srcMatch (d ++ '-' :: (v ++ e)) = some (d, v, e') := by
  obtain ⟨e', hpat, hem⟩ := extMatch_of_spec_ext e he
  refine ⟨e', hpat, ?_⟩
  have hdw := dropWhile_hyphen_free d (v ++ e) hdf
  have htw := takeWhile_hyphen_free d (v ++ e) hdf
  have hfs : findSplit ((v ++ e).takeWhile nonHyphen).length (v ++ e) =
      some (v.length, e') := by
    apply findSplit_eq
    · exact List.length_pos.mpr hv0
    · exact length_le_takeWhile_of_all nonHyphen v e
        (fun c hc => (nonHyphen_iff c).mpr (hvf c hc))
    · rw [List.drop_left]
      exact hem
    · intro jj hlt hle
      obtain ⟨i, rfl⟩ : ∃ i, jj = v.length + (i + 1) := ⟨jj - v.length - 1, by omega⟩
      rw [List.drop_append]
      exact extMatch_drop_none e he i
  simp only [srcMatch, hdw, htw, hfs]
  rw [if_neg hd0, List.take_left]

theorem tailPAP_sound (u p a pl : List Char) (h : tailPAP u = some (p, a, pl)) :
    ∃ r, p ≠ [] ∧ (∀ c ∈ p, c ≠ '-') ∧ a ≠ [] ∧ (∀ c ∈ a, c ≠ '-') ∧
      pl ≠ [] ∧ (∀ c ∈ pl, c ≠ '-') ∧
      u = p ++ '-' :: (a ++ '-' :: (pl ++ whlExt ++ r)) := by
  simp only [tailPAP] at h
  split at h
  next u2 hdw1 =>
    split at h
    next => exact absurd h (by simp)
    next hp0 =>
      split at h
      next u3 hdw2 =>
        split at h
        next => exact absurd h (by simp)
        next ha0 =>
          split at h
          next j hps =>
            obtain ⟨rfl, rfl, rfl⟩ :
                u.takeWhile nonHyphen = p ∧ u2.takeWhile nonHyphen = a ∧ u3.take j = pl := by
              simpa using h
            obtain ⟨hj1, hjk, hpre⟩ := platSearch_some_spec _ u3 _ hps
            obtain ⟨r, hr⟩ := (List.isPrefixOf_iff_prefix).mp hpre
            have hpf : ∀ c ∈ u.takeWhile nonHyphen, c ≠ '-' :=
              fun c hc => (nonHyphen_iff c).mp (List.mem_takeWhile_imp hc)
            have haf : ∀ c ∈ u2.takeWhile nonHyphen, c ≠ '-' :=
              fun c hc => (nonHyphen_iff c).mp (List.mem_takeWhile_imp hc)
            have hpl0 : u3.take j ≠ [] := by
              rw [Ne, List.take_eq_nil_iff]
              rintro (rfl | rfl)
              · omega
              · simp only [List.drop_nil] at hr
                obtain ⟨hw0, -⟩ := List.append_eq_nil.mp hr
                exact absurd hw0 (by decide)
            have hplf : ∀ c ∈ u3.take j, c ≠ '-' := fun c hc =>
              (nonHyphen_iff c).mp (all_take_of_le_takeWhile nonHyphen u3 j hjk c hc)
            have hueq : u = u.takeWhile nonHyphen ++
                '-' :: (u2.takeWhile nonHyphen ++ '-' :: (u3.take j ++ whlExt ++ r)) := by
              have hu : u = u.takeWhile nonHyphen ++ ('-' :: u2) := by
                conv_lhs => rw [← List.takeWhile_append_dropWhile nonHyphen u]
                rw [hdw1]
              have hu2 : u2 = u2.takeWhile nonHyphen ++ ('-' :: u3) := by
                conv_lhs => rw [← List.takeWhile_append_dropWhile nonHyphen u2]
                rw [hdw2]
              have hu3 : u3 = u3.take j ++ (whlExt ++ r) := by
                rw [hr]
                exact (List.take_append_drop j u3).symm
              conv_lhs => rw [hu, hu2, hu3]
              simp [List.append_assoc]
            exact ⟨r, hp0, hpf, ha0, haf, hpl0, hplf, hueq⟩
          next => exact absurd h (by simp)
      next => exact absurd h (by simp)
  next => exact absurd h (by simp)

theorem tailPAP_isSome_of_form (p a pl r : List Char) (hp0 : p ≠ [])
    (hpf : ∀ c ∈ p, c ≠ '-') (ha0 : a ≠ []) (haf : ∀ c ∈ a, c ≠ '-')
    (hpl0 : pl ≠ []) (hplf : ∀ c ∈ pl, c ≠ '-') :
    (tailPAP (p ++ '-' :: (a ++ '-' :: (pl ++ whlExt ++ r)))).isSome := by
  have h1t := takeWhile_hyphen_free p (a ++ '-' :: (pl ++ whlExt ++ r)) hpf
  have h1d := dropWhile_hyphen_free p (a ++ '-' :: (pl ++ whlExt ++ r)) hpf
  have h2t := takeWhile_hyphen_free a (pl ++ whlExt ++ r) haf
  have h2d := dropWhile_hyphen_free a (pl ++ whlExt ++ r) haf
  have hps : (platSearch ((pl ++ whlExt ++ r).takeWhile nonHyphen).length
      (pl ++ whlExt ++ r)).isSome := by
    apply platSearch_isSome _ _ pl.length
    · exact List.length_pos.mpr hpl0
    · have := length_le_takeWhile_of_all nonHyphen pl (whlExt ++ r)
        (fun c hc => (nonHyphen_iff c).mpr (hplf c hc))
      simpa [List.append_assoc] using this
    · have hd : (pl ++ whlExt ++ r).drop pl.length = whlExt ++ r := by
        rw [List.append_assoc]
        exact List.drop_left pl (whlExt ++ r)
      rw [hd]
      exact (List.isPrefixOf_iff_prefix).mpr ⟨r, rfl⟩
  obtain ⟨j, hj⟩ := Option.isSome_iff_exists.mp hps
  simp only [tailPAP, h1t, h1d, h2t, h2d, hj]
  rw [if_neg hp0, if_neg ha0]
  simp

theorem tailPAP_compose (p a pl : List Char) (hp0 : p ≠ [])
    (hpf : ∀ c ∈ p, c ≠ '-') (ha0 : a ≠ []) (haf : ∀ c ∈ a, c ≠ '-')
    (hpl0 : pl ≠ []) (hplf : ∀ c ∈ pl, c ≠ '-') :
    tailPAP (p ++ '-' :: (a ++ '-' :: (pl ++ whlExt))) = some (p, a, pl) := by
  have h1t := takeWhile_hyphen_free p (a ++ '-' :: (pl ++ whlExt)) hpf
  have h1d := dropWhile_hyphen_free p (a ++ '-' :: (pl ++ whlExt)) hpf
  have h2t := takeWhile_hyphen_free a (pl ++ whlExt) haf
  have h2d := dropWhile_hyphen_free a (pl ++ whlExt) haf
  have hps : platSearch ((pl ++ whlExt).takeWhile nonHyphen).length (pl ++ whlExt) =
      some pl.length := by
    apply platSearch_eq
    · exact List.length_pos.mpr hpl0
    · exact length_le_takeWhile_of_all nonHyphen pl whlExt
        (fun c hc => (nonHyphen_iff c).mpr (hplf c hc))
    · rw [List.drop_left]
      decide
    · intro jj hlt hle
      obtain ⟨i, rfl⟩ : ∃ i, jj = pl.length + (i + 1) := ⟨jj - pl.length - 1, by omega⟩
      rw [List.drop_append]
      exact whlExt_drop_not_prefix i
  simp only [tailPAP, h1t, h1d, h2t, h2d, hps]
  rw [if_neg hp0, if_neg ha0, List.take_left]

theorem whlMatch_sound (s : List Char) (w : WhlGroups) (h : whlMatch s = some w) :
    WhlPrefixForm s := by
  simp only [whlMatch] at h
  split at h
  next r1 hdw1 =>
    split at h
    next => exact absurd h (by simp)
    next hd0 =>
      split at h
      next t hdw2 =>
        split at h
        next => exact absurd h (by simp)
        next hv0 =>
          have hdf : ∀ c ∈ s.takeWhile nonHyphen, c ≠ '-' :=
            fun c hc => (nonHyphen_iff c).mp (List.mem_takeWhile_imp hc)
          have hvf : ∀ c ∈ r1.takeWhile nonHyphen, c ≠ '-' :=
            fun c hc => (nonHyphen_iff c).mp (List.mem_takeWhile_imp hc)
          have hs1 : s = s.takeWhile nonHyphen ++ ('-' :: r1) := by
            conv_lhs => rw [← List.takeWhile_append_dropWhile nonHyphen s]
            rw [hdw1]
          have hs2 : r1 = r1.takeWhile nonHyphen ++ ('-' :: t) := by
            conv_lhs => rw [← List.takeWhile_append_dropWhile nonHyphen r1]
            rw [hdw2]
          split at h
          next w' hba =>
            split at hba
            next t2 hdw3 =>
              split at hba
              next hdig =>
                split at hba
                next p a pl htp =>
                  obtain ⟨r, hp0, hpf, ha0, haf, hpl0, hplf, ht2⟩ :=
                    tailPAP_sound t2 p a pl htp
                  have hbf : ∀ c ∈ t.takeWhile nonHyphen, c ≠ '-' :=
                    fun c hc => (nonHyphen_iff c).mp (List.mem_takeWhile_imp hc)
                  have hs3 : t = t.takeWhile nonHyphen ++ ('-' :: t2) := by
                    conv_lhs => rw [← List.takeWhile_append_dropWhile nonHyphen t]
                    rw [hdw3]
                  refine ⟨s.takeWhile nonHyphen, r1.takeWhile nonHyphen,
                    some (t.takeWhile nonHyphen), p, a, pl, r,
                    hd0, hdf, hv0, hvf, ⟨hdig, hbf⟩, hp0, hpf, ha0, haf, hpl0, hplf, ?_⟩
                  conv_lhs => rw [hs1, hs2, hs3, ht2]
                  simp [buildSeg, List.append_assoc]
                next => exact absurd hba (by simp)
              next => exact absurd hba (by simp)
            next => exact absurd hba (by simp)
          next hba =>
            split at h
            next p a pl htp =>
              obtain ⟨r, hp0, hpf, ha0, haf, hpl0, hplf, ht⟩ :=
                tailPAP_sound t p a pl htp
              refine ⟨s.takeWhile nonHyphen, r1.takeWhile nonHyphen, none, p, a, pl, r,
                hd0, hdf, hv0, hvf, trivial, hp0, hpf, ha0, haf, hpl0, hplf, ?_⟩
              conv_lhs => rw [hs1, hs2, ht]
              simp [buildSeg, List.append_assoc]
            next => exact absurd h (by simp)
      next => exact absurd h (by simp)
  next => exact absurd h (by simp)

theorem whlMatch_isSome_of_form (s : List Char) (h : WhlPrefixForm s) :
    (whlMatch s).isSome := by
  obtain ⟨d, v, b, p, a, pl, r, hd0, hdf, hv0, hvf, hb, hp0, hpf, ha0, haf, hpl0, hplf, rfl⟩ := h
  cases b with
  | none =>
    have hseq :
        d ++ '-' :: (v ++ buildSeg none ++
            '-' :: (p ++ '-' :: (a ++ '-' :: (pl ++ whlExt ++ r)))) =
        d ++ '-' :: (v ++ '-' :: (p ++ '-' :: (a ++ '-' :: (pl ++ whlExt ++ r)))) := by
      simp [buildSeg]
    rw [hseq]
    have htw1 := takeWhile_hyphen_free d
      (v ++ '-' :: (p ++ '-' :: (a ++ '-' :: (pl ++ whlExt ++ r)))) hdf
    have hdw1 := dropWhile_hyphen_free d
      (v ++ '-' :: (p ++ '-' :: (a ++ '-' :: (pl ++ whlExt ++ r)))) hdf
    have htw2 := takeWhile_hyphen_free v
      (p ++ '-' :: (a ++ '-' :: (pl ++ whlExt ++ r))) hvf
    have hdw2 := dropWhile_hyphen_free v
      (p ++ '-' :: (a ++ '-' :: (pl ++ whlExt ++ r))) hvf
    simp only [whlMatch, htw1, hdw1, htw2, hdw2]
    rw [if_neg hd0, if_neg hv0]
    split
    next => simp
    next hba =>
      have hts := tailPAP_isSome_of_form p a pl r hp0 hpf ha0 haf hpl0 hplf
      obtain ⟨⟨p', a', pl'⟩, htp⟩ := Option.isSome_iff_exists.mp hts
      rw [htp]
      simp
  | some bb =>
    obtain ⟨hdig, hbf⟩ := hb
    have hseq :
        d ++ '-' :: (v ++ buildSeg (some bb) ++
            '-' :: (p ++ '-' :: (a ++ '-' :: (pl ++ whlExt ++ r)))) =
        d ++ '-' :: (v ++ '-' ::
            (bb ++ '-' :: (p ++ '-' :: (a ++ '-' :: (pl ++ whlExt ++ r))))) := by
      simp [buildSeg, List.append_assoc]
    rw [hseq]
    have htw1 := takeWhile_hyphen_free d
      (v ++ '-' :: (bb ++ '-' :: (p ++ '-' :: (a ++ '-' :: (pl ++ whlExt ++ r))))) hdf
    have hdw1 := dropWhile_hyphen_free d
      (v ++ '-' :: (bb ++ '-' :: (p ++ '-' :: (a ++ '-' :: (pl ++ whlExt ++ r))))) hdf
    have htw2 := takeWhile_hyphen_free v
      (bb ++ '-' :: (p ++ '-' :: (a ++ '-' :: (pl ++ whlExt ++ r)))) hvf
    have hdw2 := dropWhile_hyphen_free v
      (bb ++ '-' :: (p ++ '-' :: (a ++ '-' :: (pl ++ whlExt ++ r)))) hvf
    have htw3 := takeWhile_hyphen_free bb
      (p ++ '-' :: (a ++ '-' :: (pl ++ whlExt ++ r))) hbf
    have hdw3 := dropWhile_hyphen_free bb
      (p ++ '-' :: (a ++ '-' :: (pl ++ whlExt ++ r))) hbf
    have hts := tailPAP_isSome_of_form p a pl r hp0 hpf ha0 haf hpl0 hplf
    obtain ⟨⟨p', a', pl'⟩, htp⟩ := Option.isSome_iff_exists.mp hts
    simp only [whlMatch, htw1, hdw1, htw2, hdw2, htw3, hdw3, hdig, htp]
    rw [if_neg hd0, if_neg hv0]
    simp

theorem whlMatch_none_iff (s : List Char) : whlMatch s = none ↔ ¬ WhlPrefixForm s := by
  constructor
  · intro hn hform
    have := whlMatch_isSome_of_form s hform
    rw [hn] at this
    simp at this
  · intro hform
    cases hm : whlMatch s with
    | none => rfl
    | some w => exact absurd (whlMatch_sound s w hm) hform

theorem whlMatch_compose (d v : List Char) (b : Option (List Char)) (p a pl : List Char)
    (hd0 : d ≠ []) (hdf : ∀ c ∈ d, c ≠ '-') (hv0 : v ≠ []) (hvf : ∀ c ∈ v, c ≠ '-')
    (hb : BuildOk b) (hp0 : p ≠ []) (hpf : ∀ c ∈ p, c ≠ '-') (ha0 : a ≠ [])
    (haf : ∀ c ∈ a, c ≠ '-') (hpl0 : pl ≠ []) (hplf : ∀ c ∈ pl, c ≠ '-') :
    whlMatch (composeWhl d v b p a pl) = some ⟨d, v, b, p, a, pl⟩ := by
  have htp := tailPAP_compose p a pl hp0 hpf ha0 haf hpl0 hplf
  cases b with
  | none =>
    have hseq : composeWhl d v none p a pl =
        d ++ '-' :: (v ++ '-' :: (p ++ '-' :: (a ++ '-' :: (pl ++ whlExt)))) := by
      simp [composeWhl, buildSeg]
    rw [hseq]
    have htw1 := takeWhile_hyphen_free d
      (v ++ '-' :: (p ++ '-' :: (a ++ '-' :: (pl ++ whlExt)))) hdf
    have hdw1 := dropWhile_hyphen_free d
      (v ++ '-' :: (p ++ '-' :: (a ++ '-' :: (pl ++ whlExt)))) hdf
    have htw2 := takeWhile_hyphen_free v
      (p ++ '-' :: (a ++ '-' :: (pl ++ whlExt))) hvf
    have hdw2 := dropWhile_hyphen_free v
      (p ++ '-' :: (a ++ '-' :: (pl ++ whlExt))) hvf
    have htw3 := takeWhile_hyphen_free p (a ++ '-' :: (pl ++ whlExt)) hpf
    have hdw3 := dropWhile_hyphen_free p (a ++ '-' :: (pl ++ whlExt)) hpf
    have htp0 : tailPAP (a ++ '-' :: (pl ++ whlExt)) = none := by
      have h2t := takeWhile_hyphen_free a (pl ++ whlExt) haf
      have h2d := dropWhile_hyphen_free a (pl ++ whlExt) haf
      have hall : ∀ c ∈ pl ++ whlExt, nonHyphen c = true := by
        intro c hc
        rcases List.mem_append.mp hc with hc | hc
        · exact (nonHyphen_iff c).mpr (hplf c hc)
        · have hw : ∀ c ∈ whlExt, nonHyphen c = true := by decide
          exact hw c hc
      have h3d := dropWhile_all nonHyphen (pl ++ whlExt) hall
      simp only [tailPAP, h2t, h2d, h3d]
      simp [ha0]
    simp only [whlMatch, htw1, hdw1, htw2, hdw2, htw3, hdw3, htp0, htp]
    rw [if_neg hd0, if_neg hv0]
    cases hdp : digitHead p <;> simp [hdp]
  | some bb =>
    obtain ⟨hdig, hbf⟩ := hb
    have hseq : composeWhl d v (some bb) p a pl =
        d ++ '-' :: (v ++ '-' :: (bb ++ '-' :: (p ++ '-' :: (a ++ '-' :: (pl ++ whlExt))))) := by
      simp [composeWhl, buildSeg, List.append_assoc]
    rw [hseq]
    have htw1 := takeWhile_hyphen_free d
      (v ++ '-' :: (bb ++ '-' :: (p ++ '-' :: (a ++ '-' :: (pl ++ whlExt))))) hdf
    have hdw1 := dropWhile_hyphen_free d
      (v ++ '-' :: (bb ++ '-' :: (p ++ '-' :: (a ++ '-' :: (pl ++ whlExt))))) hdf
    have htw2 := takeWhile_hyphen_free v
      (bb ++ '-' :: (p ++ '-' :: (a ++ '-' :: (pl ++ whlExt)))) hvf
    have hdw2 := dropWhile_hyphen_free v
      (bb ++ '-' :: (p ++ '-' :: (a ++ '-' :: (pl ++ whlExt)))) hvf
    have htw3 := takeWhile_hyphen_free bb
      (p ++ '-' :: (a ++ '-' :: (pl ++ whlExt))) hbf
    have hdw3 := dropWhile_hyphen_free bb
      (p ++ '-' :: (a ++ '-' :: (pl ++ whlExt))) hbf
    simp only [whlMatch, htw1, hdw1, htw2, hdw2, htw3, hdw3, hdig, htp]
    rw [if_neg hd0, if_neg hv0]
    simp

theorem srcMatch_ext_pat (s d v e : List Char) (h : srcMatch s = some (d, v, e)) :
    e ∈ srcExtPats := by
  simp only [srcMatch] at h
  split at h
  next rest heq =>
    split at h
    next => exact absurd h (by simp)
    next hd0 =>
      split at h
      next j e' hfs =>
        obtain ⟨-, -, rfl⟩ : s.takeWhile nonHyphen = d ∧ rest.take j = v ∧ e' = e := by
          simpa using h
        obtain ⟨-, -, hext⟩ := findSplit_some_spec _ rest _ _ hfs
        exact (extMatch_some_spec _ _ hext).1
      next => exact absurd h (by simp)
  next => exact absurd h (by simp)

theorem srcExtPat_ne_whl (e : List Char) (he : e ∈ srcExtPats) : (e != whlExt) = true := by
  fin_cases he <;> decide

/-- `parse` raises exactly when neither regex accepts a prefix of the filename. -/
theorem parse_none_iff (s : List Char) :
    PackageInfo.parse s = none ↔ ¬ SrcPrefixForm s ∧ ¬ WhlPrefixForm s := by
  constructor
  · intro h
    cases hsm : srcMatch s with
    | some x =>
      obtain ⟨d, v, e⟩ := x
      simp [PackageInfo.parse, hsm] at h
    | none =>
      cases hwm : whlMatch s with
      | some w => simp [PackageInfo.parse, hsm, hwm] at h
      | none =>
        exact ⟨(srcMatch_none_iff s).mp hsm, (whlMatch_none_iff s).mp hwm⟩
  · rintro ⟨h1, h2⟩
    have hsm : srcMatch s = none := (srcMatch_none_iff s).mpr h1
    have hwm : whlMatch s = none := (whlMatch_none_iff s).mpr h2
    simp [PackageInfo.parse, hsm, hwm]

/-- The source regex is consulted first: a filename with a source-form prefix
parses as a source artifact whether or not the wheel regex would also accept. -/
theorem parse_src_first (s : List Char) (h : SrcPrefixForm s) :
    ∃ i, PackageInfo.parse s = some i ∧ i.is_src = true := by
  obtain ⟨⟨d, v, e⟩, hsm⟩ := Option.isSome_iff_exists.mp (srcMatch_isSome_of_form s h)
  refine ⟨PackageInfo.make d v e (some []) [] "none".toList "any".toList, ?_, ?_⟩
  · simp [PackageInfo.parse, hsm]
  · simpa [PackageInfo.is_src, PackageInfo.make] using
      srcExtPat_ne_whl e (srcMatch_ext_pat s d v e hsm)

/-- Every successfully parsed source artifact carries the constructor defaults:
no python tags, and the sentinel tag sets `{'none'}` and `{'any'}`. -/
theorem parse_src_defaults (s : List Char) (i : PackageInfo)
    (h : PackageInfo.parse s = some i) (hs : i.is_src = true) :
    i.python_tags = none ∧ i.abi_tags = tagSet "none".toList ∧
      i.platform_tags = tagSet "any".toList ∧ i.build_tag = some [] := by
  rw [PackageInfo.parse] at h
  split at h
  next d v e hsm =>
    obtain rfl : PackageInfo.make d v e (some []) [] "none".toList "any".toList = i := by
      simpa using h
    exact ⟨by simp [PackageInfo.make], rfl, rfl, rfl⟩
  next hsm =>
    split at h
    next w hwm =>
      obtain rfl : PackageInfo.make w.distribution w.version whlExt w.build w.python
          w.abi w.platform = i := by simpa using h
      simp [PackageInfo.is_src, PackageInfo.make] at hs
    next => exact absurd h (by simp)

theorem lookup_dictSet {β : Type} (m : List (List Char × β)) (k k' : List Char) (v : β) :
    (dictSet m k v).lookup k' = if k' = k then some v else m.lookup k' := by
  induction m with
  | nil =>
    by_cases h : k' = k
    · simp [dictSet, List.lookup, h]
    · simp [dictSet, List.lookup, beq_eq_false_iff_ne.mpr h, h]
  | cons kv rest ih =>
    obtain ⟨k₀, v₀⟩ := kv
    by_cases h0 : k₀ = k
    · subst h0
      by_cases h : k' = k₀
      · simp [dictSet, List.lookup, h]
      · simp [dictSet, List.lookup, beq_eq_false_iff_ne.mpr h, h]
    · have hb0 := beq_eq_false_iff_ne.mpr h0
      by_cases h : k' = k₀
      · subst h
        have hk : ¬ k' = k := h0
        simp [dictSet, List.lookup, hb0, hk, beq_eq_false_iff_ne.mpr hk]
      · have hb := beq_eq_false_iff_ne.mpr h
        by_cases h2 : k' = k
        · rw [h2] at ih
          simp [dictSet, List.lookup, hb0, hb, h2, ih,
            beq_eq_false_iff_ne.mpr (fun hh : k = k₀ => h0 hh.symm)]
        · simp [dictSet, List.lookup, hb0, hb, h2, ih,
            beq_eq_false_iff_ne.mpr h2]

theorem lookup_none_of_not_mem_keys {β : Type} (m : List (List Char × β)) (k : List Char)
    (h : k ∉ m.map Prod.fst) : m.lookup k = none := by
  induction m with
  | nil => rfl
  | cons kv rest ih =>
    simp only [List.map_cons, List.mem_cons] at h
    push_neg at h
    obtain ⟨h1, h2⟩ := h
    simp [List.lookup, beq_eq_false_iff_ne.mpr h1, ih h2]

theorem lookup_dictUpdate {β : Type} (base upd : List (List Char × β)) (k : List Char)
    (h : (upd.map Prod.fst).Nodup) :
    (dictUpdate base upd).lookup k = (upd.lookup k).or (base.lookup k) := by
  induction upd generalizing base with
  | nil => simp [dictUpdate, List.lookup]
  | cons kv rest ih =>
    obtain ⟨k₀, v₀⟩ := kv
    simp only [List.map_cons] at h
    have hk0 : k₀ ∉ rest.map Prod.fst := (List.nodup_cons.mp h).1
    have hnd : (rest.map Prod.fst).Nodup := (List.nodup_cons.mp h).2
    have hstep : dictUpdate base ((k₀, v₀) :: rest) = dictUpdate (dictSet base k₀ v₀) rest :=
      rfl
    rw [hstep, ih _ hnd]
    by_cases hk : k = k₀
    · subst hk
      rw [lookup_none_of_not_mem_keys rest k hk0]
      simp [List.lookup, lookup_dictSet]
    · simp [List.lookup, beq_eq_false_iff_ne.mpr hk, lookup_dictSet, hk]

theorem uploadRun_ok (st : Store) (art : PackageArtifact) (ow : Bool) :
    ∃ st', uploadRun st art ow = .ok (st', artifactKey art) := by
  cases ow with
  | true => exact ⟨_, rfl⟩
  | false =>
    rw [uploadRun, honestProbe]
    by_cases h : (st.objects.lookup (artifactKey art)).isSome
    · rw [if_pos h]
      exact ⟨st, rfl⟩
    · rw [if_neg h]
      exact ⟨_, rfl⟩

/-- C1 counterexample: the filename `foo-1.0.zip.exe` matches neither
whole-filename grammar (no recognized extension ends it), yet `parse` succeeds,
because `re.match` anchors only the start of the string and ignores the
trailing `.exe` after the source-form prefix `foo-1.0.zip`. -/
theorem claim1_counterexample :
    ¬ SrcGrammarFull "foo-1.0.zip.exe".toList ∧
      ¬ WhlGrammarFull "foo-1.0.zip.exe".toList ∧
      PackageInfo.parse "foo-1.0.zip.exe".toList ≠ none := by
  refine ⟨?_, ?_, by decide⟩
  · rintro ⟨d, v, e, hd0, hv0, he, hs⟩
    have hsuf : e <:+ "foo-1.0.zip.exe".toList := ⟨d ++ '-' :: v, by rw [hs]; simp⟩
    fin_cases he <;> revert hsuf <;> decide
  · rintro ⟨front, hs⟩
    have hsuf : whlExt <:+ "foo-1.0.zip.exe".toList := ⟨front, hs.symm⟩
    revert hsuf
    decide

/-- C1 (amended): `parse(filename)` raises `ParseError` precisely when no
prefix of the filename lies in the language of the source regex (nonempty
hyphen-free distribution and version followed by `.tar.bz`, `.tar.gz`,
`.tar.xz` or `.zip`) nor in the language of the built-binary regex; the source
regex is consulted first and its match wins, so any filename with a
source-form prefix is classified as a source artifact. -/
theorem claim1_theorem (s : List Char) :
    (PackageInfo.parse s = none ↔ ¬ SrcPrefixForm s ∧ ¬ WhlPrefixForm s) ∧
      (SrcPrefixForm s → ∃ i, PackageInfo.parse s = some i ∧ i.is_src = true) :=
  ⟨parse_none_iff s, parse_src_first s⟩

theorem claim1_witness :
    ∃ i, PackageInfo.parse "foo-1.0.zip".toList = some i ∧ i.is_src = true :=
  (claim1_theorem ("foo-1.0.zip".toList)).2
    ⟨"foo".toList, "1.0".toList, ".zip".toList, [], by decide, by decide, by decide,
      by decide, by decide, by decide⟩

/-- C2 counterexample: `foo-1.0-beta.tar.gz` is of the claimed source-grammar
shape `<distribution>-<version><ext>` — distribution `foo`, version `1.0-beta`
(the remainder between the first hyphen and the recognized extension), and
extension `.tar.gz` — yet `parse` raises `ParseError`: the version group of
`src_re` is `[^-]+` and cannot contain a hyphen. -/
theorem claim2_counterexample :
    SrcGrammarFull "foo-1.0-beta.tar.gz".toList ∧
      PackageInfo.parse "foo-1.0-beta.tar.gz".toList = none :=
  ⟨⟨"foo".toList, "1.0-beta".toList, ".tar.gz".toList, by decide, by decide, by decide,
    by decide⟩, by decide⟩

/-- C2 (amended): for every filename `<distribution>-<version><ext>` with the
distribution and version nonempty and hyphen-free and ext one of `.tar.gz`,
`.tar.bz2`, `.tar.xz`, `.zip`, `parse` yields kind SOURCE with exactly that
distribution and version. -/
theorem claim2_theorem (d v e : List Char) (hd0 : d ≠ []) (hdf : ∀ c ∈ d, c ≠ '-')
    (hv0 : v ≠ []) (hvf : ∀ c ∈ v, c ≠ '-') (he : e ∈ specSrcExts) :
    ∃ i, PackageInfo.parse (d ++ '-' :: (v ++ e)) = some i ∧
      i.distribution = d ∧ i.version = v ∧ i.is_src = true := by
  obtain ⟨e', hpat, hsm⟩ := srcMatch_compose d v e hd0 hdf hv0 hvf he
  refine ⟨PackageInfo.make d v e' (some []) [] "none".toList "any".toList, ?_, rfl, rfl, ?_⟩
  · simp [PackageInfo.parse, hsm]
  · simpa [PackageInfo.is_src, PackageInfo.make] using srcExtPat_ne_whl e' hpat

theorem claim2_witness :
    ∃ i, PackageInfo.parse ("requests".toList ++ '-' :: ("2.0.0".toList ++
        ".tar.bz2".toList)) = some i ∧
      i.distribution = "requests".toList ∧ i.version = "2.0.0".toList ∧
      i.is_src = true :=
  claim2_theorem ("requests".toList) ("2.0.0".toList) (".tar.bz2".toList)
    (by decide) (by decide) (by decide) (by decide) (by decide)

/-- C3 counterexample: composing the built-binary filename from the tuple
(`foo`, `1.zip`, no build, `py3`, `none`, `any`) gives
`foo-1.zip-py3-none-any.whl`, which parses as a SOURCE artifact with version
`1` and extension `.zip`, not as a BUILT_BINARY with the original fields: the
source regex is tried first and prefix-matches inside the version. -/
theorem claim3_counterexample :
    PackageInfo.parse (composeWhl "foo".toList "1.zip".toList none "py3".toList
        "none".toList "any".toList) =
      some (PackageInfo.make "foo".toList "1".toList ".zip".toList (some [])
        [] "none".toList "any".toList) ∧
    (PackageInfo.make "foo".toList "1".toList ".zip".toList (some [])
        [] "none".toList "any".toList).is_whl = false := by
  exact ⟨by decide, by decide⟩

/-- C3 (amended): for every tuple whose fields are nonempty and hyphen-free,
with the build segment absent or digit-initial, and whose composed filename has
no prefix in the source-regex language, parsing the composed built-binary
filename recovers kind BUILT_BINARY, the distribution, version and dot-split
tag sets, and a build tag that is `None` exactly when the segment was absent
(never conflated with the empty-string default of source artifacts). -/
theorem claim3_theorem (d v : List Char) (b : Option (List Char)) (p a pl : List Char)
    (hd0 : d ≠ []) (hdf : ∀ c ∈ d, c ≠ '-') (hv0 : v ≠ []) (hvf : ∀ c ∈ v, c ≠ '-')
    (hb : BuildOk b) (hp0 : p ≠ []) (hpf : ∀ c ∈ p, c ≠ '-') (ha0 : a ≠ [])
    (haf : ∀ c ∈ a, c ≠ '-') (hpl0 : pl ≠ []) (hplf : ∀ c ∈ pl, c ≠ '-')
    (hsrc : ¬ SrcPrefixForm (composeWhl d v b p a pl)) :
    PackageInfo.parse (composeWhl d v b p a pl) =
      some (PackageInfo.make d v whlExt b p a pl) ∧
    (PackageInfo.make d v whlExt b p a pl).is_whl = true ∧
    (PackageInfo.make d v whlExt b p a pl).distribution = d ∧
    (PackageInfo.make d v whlExt b p a pl).version = v ∧
    (PackageInfo.make d v whlExt b p a pl).build_tag = b ∧
    (PackageInfo.make d v whlExt b p a pl).python_tags = some (tagSet p) ∧
    (PackageInfo.make d v whlExt b p a pl).abi_tags = tagSet a ∧
    (PackageInfo.make d v whlExt b p a pl).platform_tags = tagSet pl := by
  have hsm : srcMatch (composeWhl d v b p a pl) = none := (srcMatch_none_iff _).mpr hsrc
  have hwm := whlMatch_compose d v b p a pl hd0 hdf hv0 hvf hb hp0 hpf ha0 haf hpl0 hplf
  refine ⟨?_, by simp [PackageInfo.is_whl, PackageInfo.make], rfl, rfl, rfl,
    by simp [PackageInfo.make, hp0], rfl, rfl⟩
  simp [PackageInfo.parse, hsm, hwm]

theorem claim3_witness :
    PackageInfo.parse (composeWhl "requests".toList "2.0.0".toList none "cp39".toList
        "cp39".toList "linux_x86_64".toList) =
      some (PackageInfo.make "requests".toList "2.0.0".toList whlExt none "cp39".toList
        "cp39".toList "linux_x86_64".toList) ∧
    (PackageInfo.make "requests".toList "2.0.0".toList whlExt none "cp39".toList
        "cp39".toList "linux_x86_64".toList).is_whl = true ∧
    (PackageInfo.make "requests".toList "2.0.0".toList whlExt none "cp39".toList
        "cp39".toList "linux_x86_64".toList).distribution = "requests".toList ∧
    (PackageInfo.make "requests".toList "2.0.0".toList whlExt none "cp39".toList
        "cp39".toList "linux_x86_64".toList).version = "2.0.0".toList ∧
    (PackageInfo.make "requests".toList "2.0.0".toList whlExt none "cp39".toList
        "cp39".toList "linux_x86_64".toList).build_tag = none ∧
    (PackageInfo.make "requests".toList "2.0.0".toList whlExt none "cp39".toList
        "cp39".toList "linux_x86_64".toList).python_tags = some (tagSet "cp39".toList) ∧
    (PackageInfo.make "requests".toList "2.0.0".toList whlExt none "cp39".toList
        "cp39".toList "linux_x86_64".toList).abi_tags = tagSet "cp39".toList ∧
    (PackageInfo.make "requests".toList "2.0.0".toList whlExt none "cp39".toList
        "cp39".toList "linux_x86_64".toList).platform_tags = tagSet "linux_x86_64".toList :=
  claim3_theorem ("requests".toList) ("2.0.0".toList) none ("cp39".toList) ("cp39".toList)
    "linux_x86_64".toList (by decide) (by decide) (by decide) (by decide) trivial
    (by decide) (by decide) (by decide) (by decide) (by decide) (by decide)
    ((srcMatch_none_iff _).mp (by decide))

/-- C4: conditional publish is idempotent by name.  Starting from a store
without the computed key, two `force=False` publishes of the same artifact
perform exactly one upload (the uploads log grows by one single entry over the
two calls) and return the same key both times; and against any store that
already holds an object under the key, a non-forced publish uploads nothing
(store unchanged) regardless of what content is stored there. -/
theorem claim4_theorem (st : Store) (art : PackageArtifact)
    (habs : st.objects.lookup (artifactKey art) = none) :
    (∃ st1, uploadRun st art false = .ok (st1, artifactKey art) ∧
      uploadRun st1 art false = .ok (st1, artifactKey art) ∧
      st1.uploads = st.uploads ++ [artifactKey art]) ∧
    (∀ st' : Store, ∀ c, st'.objects.lookup (artifactKey art) = some c →
      uploadRun st' art false = .ok (st', artifactKey art)) := by
  constructor
  · refine ⟨storePut st (artifactKey art) art.content, ?_, ?_, rfl⟩
    · simp [uploadRun, honestProbe, habs, upload_artifact]
    · have hl : (storePut st (artifactKey art) art.content).objects.lookup
          (artifactKey art) = some art.content := by
        simp [storePut, lookup_dictSet]
      simp [uploadRun, honestProbe, hl, upload_artifact]
  · intro st' c hc
    simp [uploadRun, honestProbe, hc, upload_artifact]

theorem claim4_witness :
    ∃ st1, uploadRun ⟨[], []⟩ sampleArtifact false = .ok (st1, artifactKey sampleArtifact) ∧
      uploadRun st1 sampleArtifact false = .ok (st1, artifactKey sampleArtifact) ∧
      st1.uploads = Store.uploads ⟨[], []⟩ ++ [artifactKey sampleArtifact] :=
  (claim4_theorem ⟨[], []⟩ sampleArtifact (by decide)).1

/-- C5: the returned key is always `distribution ++ "/" ++ basename(path)`,
independent of the probe outcome or whether an upload occurred; a forced
publish uploads unconditionally, overwriting the object stored at the key, and
two forced publishes append two entries to the uploads log. -/
theorem claim5_theorem (st : Store) (pth c : List Char) (art : PackageArtifact)
    (hmk : PackageArtifact.make pth c = some art) :
    artifactKey art = art.info.distribution ++ '/' :: (os_path_split pth).2 ∧
    (∀ st₀ : Store, ∀ pr₀ : LoadOutcome, upload_artifact st₀ art true pr₀ =
      .ok (storePut st₀ (artifactKey art) art.content, artifactKey art)) ∧
    (∀ st₀ : Store, ∀ pr₀ : LoadOutcome, ∀ r, upload_artifact st₀ art false pr₀ = .ok r →
      r.2 = artifactKey art) ∧
    (storePut st (artifactKey art) art.content).objects.lookup (artifactKey art) =
      some art.content ∧
    (storePut (storePut st (artifactKey art) art.content) (artifactKey art)
        art.content).uploads = st.uploads ++ [artifactKey art, artifactKey art] := by
  rw [PackageArtifact.make] at hmk
  cases hp : PackageInfo.parse (os_path_split pth).2 with
  | none => rw [hp] at hmk; exact absurd hmk (by simp)
  | some i =>
    rw [hp] at hmk
    obtain rfl : (⟨pth, (os_path_split pth).1, (os_path_split pth).2, i, c⟩ :
        PackageArtifact) = art := by simpa using hmk
    refine ⟨rfl, fun st₀ pr₀ => rfl, ?_, ?_, ?_⟩
    · intro st₀ pr₀ r h
      cases pr₀ <;> simp [upload_artifact] at h <;> simp [← h]
    · simp [storePut, lookup_dictSet]
    · simp [storePut]

theorem claim5_witness :
    artifactKey sampleArtifact =
      sampleArtifact.info.distribution ++
        '/' :: (os_path_split "/tmp/requests-2.0.0.tar.gz".toList).2 ∧
    (∀ st₀ : Store, ∀ pr₀ : LoadOutcome, upload_artifact st₀ sampleArtifact true pr₀ =
      .ok (storePut st₀ (artifactKey sampleArtifact) sampleArtifact.content,
        artifactKey sampleArtifact)) ∧
    (∀ st₀ : Store, ∀ pr₀ : LoadOutcome, ∀ r,
      upload_artifact st₀ sampleArtifact false pr₀ = .ok r →
        r.2 = artifactKey sampleArtifact) ∧
    (storePut ⟨[], []⟩ (artifactKey sampleArtifact)
        sampleArtifact.content).objects.lookup (artifactKey sampleArtifact) =
      some sampleArtifact.content ∧
    (storePut (storePut ⟨[], []⟩ (artifactKey sampleArtifact) sampleArtifact.content)
        (artifactKey sampleArtifact) sampleArtifact.content).uploads =
      Store.uploads ⟨[], []⟩ ++ [artifactKey sampleArtifact, artifactKey sampleArtifact] :=
  claim5_theorem ⟨[], []⟩ "/tmp/requests-2.0.0.tar.gz".toList "bytes".toList
    sampleArtifact (by decide)

/-- C9 counterexample: an auth denial from the existence probe is a boto3
`ClientError`, which `upload_artifact` catches exactly like object-not-found —
the call returns normally and performs an upload instead of propagating a
store-unavailable error. -/
theorem claim9_counterexample :
    LoadOutcome.isClientError .authDenied = true ∧
    upload_artifact ⟨[], []⟩ sampleArtifact false .authDenied =
      .ok (storePut ⟨[], []⟩ (artifactKey sampleArtifact) sampleArtifact.content,
        artifactKey sampleArtifact) :=
  ⟨rfl, rfl⟩

/-- C9 (amended): during a conditional publish only probe failures outside the
`ClientError` class (transport failures) propagate out of `upload_artifact`;
every `ClientError` outcome — object-not-found and auth denial alike — is
caught and triggers an upload, and only a successful probe (object found)
skips the upload. -/
theorem claim9_theorem (st : Store) (art : PackageArtifact) :
    upload_artifact st art false .transportFail = .error () ∧
    (∀ pr : LoadOutcome, pr.isClientError = true →
      upload_artifact st art false pr =
        .ok (storePut st (artifactKey art) art.content, artifactKey art)) ∧
    upload_artifact st art false .found = .ok (st, artifactKey art) := by
  refine ⟨rfl, ?_, rfl⟩
  intro pr hpr
  cases pr with
  | notFound => rfl
  | authDenied => rfl
  | found => simp [LoadOutcome.isClientError] at hpr
  | transportFail => simp [LoadOutcome.isClientError] at hpr

theorem claim9_witness :
    upload_artifact ⟨[], []⟩ sampleArtifact false .notFound =
      .ok (storePut ⟨[], []⟩ (artifactKey sampleArtifact) sampleArtifact.content,
        artifactKey sampleArtifact) :=
  (claim9_theorem ⟨[], []⟩ sampleArtifact).2.1 .notFound rfl

theorem sortKeys_single (k : List Char) : sortKeys [k] = [k] := rfl


/-- C6 counterexample: vending a single source artifact
`requests-2.0.0.tar.gz` invokes the build step exactly once (on the source
key), but the response's artifacts list holds only the source key
`requests/requests-2.0.0.tar.gz` — the claimed built-binary key
`requests/requests-2.0.0-cp39-cp39-linux_x86_64.whl` is absent, because
`build_wheel` only launches an asynchronous EC2 build and contributes no keys
to the response. -/
theorem claim6_counterexample :
    (vend [("requests-2.0.0.tar.gz".toList, "src".toList)] ⟨[], []⟩ false
        "bucket".toList).map (fun r => (r.2.1.artifacts, r.2.2)) =
      .ok (["requests/requests-2.0.0.tar.gz".toList],
        ["requests/requests-2.0.0.tar.gz".toList]) ∧
    "requests/requests-2.0.0-cp39-cp39-linux_x86_64.whl".toList ∉
      ["requests/requests-2.0.0.tar.gz".toList] :=
  ⟨by decide, by decide⟩

/-- C6 (amended): for a vend request whose acquisition yields a single source
artifact, the build step is invoked exactly once, receiving the source's
storage key, and the response's artifacts field is the sorted list of the keys
of the uploaded acquired artifacts — here exactly the source key; keys of
wheels produced later by the asynchronous build do not appear in the
response. -/
theorem claim6_theorem (fname content : List Char) (st : Store) (rebuild : Bool)
    (bucketname : List Char) (i : PackageInfo)
    (hp : PackageInfo.parse (os_path_split fname).2 = some i) (hsrc : i.is_src = true) :
    ∃ st' msg url, vend [(fname, content)] st rebuild bucketname =
      .ok (st', ⟨msg, url, [i.distribution ++ '/' :: (os_path_split fname).2]⟩,
        [i.distribution ++ '/' :: (os_path_split fname).2]) := by
  have hmk : PackageArtifact.make fname content =
      some ⟨fname, (os_path_split fname).1, (os_path_split fname).2, i, content⟩ := by
    simp [PackageArtifact.make, hp]
  obtain ⟨st', hup⟩ := uploadRun_ok st
    ⟨fname, (os_path_split fname).1, (os_path_split fname).2, i, content⟩ rebuild
  refine ⟨st',
    "Build under way. Once complete, download wheels from ".toList ++
      ("https://".toList ++ bucketname ++ ".s3.amazonaws.com/".toList) ++ ".".toList,
    "https://".toList ++ bucketname ++ ".s3.amazonaws.com/".toList, ?_⟩
  simp [vend, vendLoop, hmk, hup, hsrc, sortKeys_single, artifactKey, Except.map]

theorem claim6_witness :
    ∃ st' msg url, vend [("requests-2.0.0.tar.gz".toList, "src".toList)] ⟨[], []⟩ false
        "bucket".toList =
      .ok (st', ⟨msg, url,
        [(PackageInfo.make "requests".toList "2.0.0".toList ".tar.gz".toList (some [])
            [] "none".toList "any".toList).distribution ++
          '/' :: (os_path_split "requests-2.0.0.tar.gz".toList).2]⟩,
        [(PackageInfo.make "requests".toList "2.0.0".toList ".tar.gz".toList (some [])
            [] "none".toList "any".toList).distribution ++
          '/' :: (os_path_split "requests-2.0.0.tar.gz".toList).2]) :=
  claim6_theorem ("requests-2.0.0.tar.gz".toList) ("src".toList) ⟨[], []⟩ false
    "bucket".toList
    (PackageInfo.make "requests".toList "2.0.0".toList ".tar.gz".toList (some [])
      [] "none".toList "any".toList) (by decide) (by decide)

/-- C7: the request adapter splits the greedy path parameter's value on `/`
into the positional arguments, in order, and the keyword arguments are the
merge of body, then query parameters, then remaining path parameters, with the
later source winning on every key collision. -/
theorem claim7_theorem (e : ProxyEvent) (key tail : List Char)
    (pp q : List (List Char × List Char)) (b : List (List Char × JsonVal))
    (hfind : findProxyParam e.resource = some key)
    (hpp : e.pathParameters = some pp) (hq : e.queryStringParameters = some q)
    (hb : e.body = some b)
    (hppn : (pp.map Prod.fst).Nodup) (hqn : (q.map Prod.fst).Nodup)
    (hbn : (b.map Prod.fst).Nodup)
    (htail : pp.lookup key = some tail) :
    ∃ kw, apiproxyCall e = some (tail.splitOn '/', kw) ∧
      ∀ k, kw.lookup k =
        (((strVals (pp.filter fun kv => !(kv.1 == key))).lookup k).or
          (((strVals q).lookup k).or (b.lookup k))) := by
  refine ⟨dictUpdate (dictUpdate (dictUpdate [] b) (strVals q))
    (strVals (pp.filter fun kv => !(kv.1 == key))), ?_, ?_⟩
  · simp [apiproxyCall, hfind, hpp, hq, hb, htail]
  · intro k
    have hkeys : ∀ m : List (List Char × List Char),
        (strVals m).map Prod.fst = m.map Prod.fst := by
      intro m
      simp [strVals]
    have hppn' : ((strVals (pp.filter fun kv => !(kv.1 == key))).map Prod.fst).Nodup := by
      rw [hkeys]
      exact ((List.filter_sublist pp).map Prod.fst).nodup hppn
    have hqn' : ((strVals q).map Prod.fst).Nodup := by
      rw [hkeys]
      exact hqn
    rw [lookup_dictUpdate _ _ _ hppn', lookup_dictUpdate _ _ _ hqn',
      lookup_dictUpdate _ _ _ hbn]
    simp [List.lookup]

theorem claim7_witness :
    ∃ kw, apiproxyCall ⟨"/3/vend/{requirements+}".toList,
        some [("requirements".toList, "requests==2.0.0/six".toList)],
        some [("rebuild".toList, "1".toList)],
        some [("minimal".toList, JsonVal.boolean true)]⟩ =
      some (["requests==2.0.0".toList, "six".toList], kw) ∧
      kw.lookup "rebuild".toList = some (JsonVal.str "1".toList) ∧
      kw.lookup "minimal".toList = some (JsonVal.boolean true) := by
  obtain ⟨kw, h1, h2⟩ := claim7_theorem
    ⟨"/3/vend/{requirements+}".toList,
        some [("requirements".toList, "requests==2.0.0/six".toList)],
        some [("rebuild".toList, "1".toList)],
        some [("minimal".toList, JsonVal.boolean true)]⟩
    "requirements".toList "requests==2.0.0/six".toList
    [("requirements".toList, "requests==2.0.0/six".toList)]
    [("rebuild".toList, "1".toList)] [("minimal".toList, JsonVal.boolean true)]
    (by decide) rfl rfl rfl (by decide) (by decide) (by decide) (by decide)
  rw [show ("requests==2.0.0/six".toList).splitOn '/' =
    ["requests==2.0.0".toList, "six".toList] from by decide] at h1
  refine ⟨kw, h1, ?_, ?_⟩
  · rw [h2 "rebuild".toList]
    decide
  · rw [h2 "minimal".toList]
    decide

/-- C8: the `tempdir()` context manager has no `try`/`finally` around its
`yield`, so when the managed block raises — here, `pip download` failing for
the requirement `nonexistent-package==9.9.9` — the `shutil.rmtree` after the
`yield` never runs and the staging directory is leaked (`false` in the second
component), contradicting the claim that the directory is removed on every
exit path.  The shape normalization half of the claim does hold: a
whitespace-delimited string and a list of specifiers are both normalized to
the same list, and on the fully successful path the directory is removed. -/
theorem claim8_code_bug :
    download_packages (Sum.inl "nonexistent-package==9.9.9".toList)
        (fun _ => .error ()) (fun ps => .ok ps) = (.error (), false) ∧
    normalizeRequirements (Sum.inl "requests==2.0.0 six".toList) =
      ["requests==2.0.0".toList, "six".toList] ∧
    normalizeRequirements (Sum.inr ["requests==2.0.0".toList, "six".toList]) =
      ["requests==2.0.0".toList, "six".toList] ∧
    download_packages (Sum.inl "requests==2.0.0".toList)
        (fun _ => .ok ["requests-2.0.0.tar.gz".toList]) (fun ps => .ok ps) =
      (.ok ["requests-2.0.0.tar.gz".toList], true) ∧
    (tempdirRun (.error ()) : Except Unit Unit × Bool) = (.error (), false) :=
  ⟨rfl, by decide, rfl, rfl, rfl⟩

/-- C10 counterexample: the source artifact `requests-2.0.0.tar.gz` parses
with `abi_tags = {'none'}` and `platform_tags = {'any'}` — nonempty sentinel
singleton sets coming from the constructor defaults `abi='none'`,
`platform='any'` — so the ABI and platform tag sets of a SOURCE artifact are
neither empty nor absent. -/
theorem claim10_counterexample :
    PackageInfo.parse "requests-2.0.0.tar.gz".toList =
      some (PackageInfo.make "requests".toList "2.0.0".toList ".tar.gz".toList (some [])
        [] "none".toList "any".toList) ∧
    (PackageInfo.make "requests".toList "2.0.0".toList ".tar.gz".toList (some [])
        [] "none".toList "any".toList).is_src = true ∧
    (PackageInfo.make "requests".toList "2.0.0".toList ".tar.gz".toList (some [])
        [] "none".toList "any".toList).abi_tags ≠ ∅ ∧
    (PackageInfo.make "requests".toList "2.0.0".toList ".tar.gz".toList (some [])
        [] "none".toList "any".toList).platform_tags ≠ ∅ := by
  refine ⟨by decide, by decide, by decide, by decide⟩

/-- C10 (amended): every artifact that `parse` classifies as SOURCE carries
`python_tags = None` (absent) but the sentinel singleton tag sets `{'none'}`
for the ABI dimension and `{'any'}` for the platform dimension — the
PEP 425 markers for "no ABI" and "any platform" — rather than empty or absent
sets; only the language-implementation tag set is absent. -/
theorem claim10_theorem (s : List Char) (i : PackageInfo)
    (h : PackageInfo.parse s = some i) (hs : i.is_src = true) :
    i.python_tags = none ∧ i.abi_tags = tagSet "none".toList ∧
      i.platform_tags = tagSet "any".toList := by
  obtain ⟨h1, h2, h3, -⟩ := parse_src_defaults s i h hs
  exact ⟨h1, h2, h3⟩

theorem claim10_witness :
    (PackageInfo.make "requests".toList "2.0.0".toList ".tar.gz".toList (some [])
        [] "none".toList "any".toList).python_tags = none ∧
    (PackageInfo.make "requests".toList "2.0.0".toList ".tar.gz".toList (some [])
        [] "none".toList "any".toList).abi_tags = tagSet "none".toList ∧
    (PackageInfo.make "requests".toList "2.0.0".toList ".tar.gz".toList (some [])
        [] "none".toList "any".toList).platform_tags = tagSet "any".toList :=
  claim10_theorem ("requests-2.0.0.tar.gz".toList)
    (PackageInfo.make "requests".toList "2.0.0".toList ".tar.gz".toList (some [])
      [] "none".toList "any".toList) (by decide) (by decide)

example : (PackageInfo.parse "requests-2.0.0.tar.gz".toList).isSome = true := by decide
example : (PackageInfo.parse "not-a-package".toList) = none := by decide
example : (PackageInfo.parse "foo.exe".toList) = none := by decide
example :
    PackageInfo.parse "six-1.12.0-py2.py3-none-any.whl".toList =
      some (PackageInfo.make "six".toList "1.12.0".toList whlExt none
        "py2.py3".toList "none".toList "any".toList) := by decide
example : (PackageInfo.parse "foo-1.0.zip.exe".toList).isSome = true := by decide
example : (PackageInfo.parse "foo-1.0-beta.tar.gz".toList) = none := by decide
example :
    (PackageInfo.parse "foo-1.zip-py3-none-any.whl".toList).map PackageInfo.is_src =
      some true := by decide
example :
    PackageInfo.parse "foo-1.0-2abc-py3-none-any.whl".toList =
      some (PackageInfo.make "foo".toList "1.0".toList whlExt (some "2abc".toList)
        "py3".toList "none".toList "any".toList) := by decide
example :
    (PackageInfo.parse "pkg-0.1.tar.bz2".toList).map PackageInfo.version =
      some "0.1".toList := by decide

example : splitWs "requests==2.0.0 six".toList =
    ["requests==2.0.0".toList, "six".toList] := by decide

example : PackageArtifact.make "/tmp/requests-2.0.0.tar.gz".toList "bytes".toList =
    some sampleArtifact := by decide
